import Mathlib

/-!
Shallow embedding of `src/DB.py` (class `PDFLoader`) of the MultiModel-RAG
repository, together with proofs of the specification claims about its
dual-representation index (summary vector store + keyed content store).

Python-to-Lean conventions used throughout:
* the `in` substring test on `str(type(chunk))` becomes `strContains` on an
  explicit `typeName` field carried by each chunk / element;
* `uuid.uuid4()` freshness is modelled by a monotone counter `nextId`
  (identifiers are opaque; only freshness matters, which uuid4 provides by
  generation);
* the Chroma vector store is an insertion-ordered list of
  (identifier, summary) entries (`add_documents` appends);
* the `InMemoryStore` doc store is an insertion-ordered association list and
  `mset` overwrites an existing key in place or appends a new one, matching
  dict-update semantics;
* Python exceptions (a missing API key in `__init__`, an out-of-range index
  in a list comprehension) become `Except` / `Option` failures;
* the external LLM summarizers are parameters (`Chunk → String` for
  text/table, `String → String` for base64 images);
* `time.sleep` and the LLM invocations in `create_summary` /
  `create_img_summary` are recorded in an event trace for the temporal claim.
-/

/-- Is `p` a prefix of `a`? Helper for the substring test. -/
def isPre : List Char → List Char → Bool
  | [], _ => true
  | _ :: _, [] => false
  | p :: ps, a :: as => p == a && isPre ps as

/-- Does `pat` occur as a contiguous run inside `s`? -/
def containsSub : List Char → List Char → Bool
  | [], pat => pat.isEmpty
  | a :: s, pat => isPre pat (a :: s) || containsSub s pat

/-- Substring test: Lean rendering of Python `pat in s`, used for the
`"Table" in str(type(chunk))`-style dynamic type checks of
`get_text_tables` / `get_imagesb64`. -/
def strContains (s pat : String) : Bool :=
  containsSub s.data pat.data

/-- A sub-element embedded in a composite chunk (`chunk.metadata.orig_elements`
in `get_imagesb64`): its runtime type name and its `metadata.image_base64`
payload. -/
structure Element where
  typeName : String
  image_base64 : String
deriving DecidableEq, Repr

/-- A chunk produced by `partition_pdf`: its runtime type name (inspected with
substring tests in `get_text_tables` / `get_imagesb64`), its content, and the
sub-elements `metadata.orig_elements`. -/
structure Chunk where
  typeName : String
  content : String
  orig_elements : List Element
deriving DecidableEq, Repr

/-- A value stored in the doc store: either a whole chunk object (texts and
tables are stored as the chunk itself in `bind_data`) or a base64 image
string. -/
inductive Payload where
  | chunk (c : Chunk)
  | image (b64 : String)
deriving DecidableEq, Repr

/-- Model of `PDFLoader.get_text_tables`: one pass over the chunks appending to two
lists; a chunk whose type name contains `"CompositeElement"` goes to `texts`,
one whose type name contains `"Table"` goes to `tables` (both tests run on
every chunk). Returns `(texts, tables)`. -/
def get_text_tables : List Chunk → List Chunk × List Chunk
  | [] => ([], [])
  | c :: cs =>
    let rest := get_text_tables cs
    (if strContains c.typeName "CompositeElement" then c :: rest.1 else rest.1,
     if strContains c.typeName "Table" then c :: rest.2 else rest.2)

/-- The images drawn from one composite chunk's `orig_elements`: the
`image_base64` of each element whose type name contains `"Image"`, in order. -/
def imagesOfElements (els : List Element) : List String :=
  (els.filter (fun e => strContains e.typeName "Image")).map (fun e => e.image_base64)

/-- Model of `PDFLoader.get_imagesb64`: walk the chunks in order; for each chunk whose
type name contains `"CompositeElement"`, collect the base64 payloads of its
`"Image"` sub-elements, in order. Other chunks are skipped entirely. -/
def get_imagesb64 : List Chunk → List String
  | [] => []
  | c :: cs =>
    (if strContains c.typeName "CompositeElement" then imagesOfElements c.orig_elements
     else []) ++ get_imagesb64 cs

/-- Model of `PDFLoader.create_summary`, result part: one summarizer call per text
chunk, then one per table chunk, in order (the loops append one summary per
element). -/
def create_summary (summ : Chunk → String) (texts tables : List Chunk) :
    List String × List String :=
  (texts.map summ, tables.map summ)

/-- Model of `PDFLoader.create_img_summary`, result part: one vision-summarizer call
per extracted base64 image, in order. -/
def create_img_summary (vsumm : String → String) (images : List String) :
    List String :=
  images.map vsumm

/-- Events of the ingestion trace: an LLM summarization call, or a
`time.sleep(0.5)` pause. -/
inductive Ev where
  | call
  | sleep
deriving DecidableEq, Repr

/-- Trace of the `for element in self.texts` loop of `create_summary`, started
with counter value `count`: each iteration increments the counter, pauses when
the counter is divisible by 10, then performs the call. -/
def textEvents : Nat → Nat → List Ev
  | _, 0 => []
  | count, n + 1 =>
    (if (count + 1) % 10 == 0 then [Ev.sleep] else []) ++ Ev.call ::
      textEvents (count + 1) n

/-- Trace of a whole ingestion with `t` text chunks, `b` table chunks and `i`
extracted images: `create_summary` runs the text loop (counter starts at 0,
pause check inside), then the table loop (counter keeps incrementing but has
no pause check), then `create_img_summary` runs the image loop (no counter,
no pause). -/
def ingestTrace (t b i : Nat) : List Ev :=
  textEvents 0 t ++ List.replicate b Ev.call ++ List.replicate i Ev.call

/-- Number of `sleep` events in a trace. -/
def countSleeps (tr : List Ev) : Nat :=
  (tr.filter (fun e => e == Ev.sleep)).length

/-- Number of `call` events in a trace. -/
def countCalls (tr : List Ev) : Nat :=
  (tr.filter (fun e => e == Ev.call)).length

/-- State of the dual-representation index held by a `PDFLoader` object:
`vectorstore` is the Chroma summary collection (insertion-ordered
(identifier, summary) entries), `docstore` is the `InMemoryStore` content
store (identifier ↦ payload), and `nextId` models the uuid4 source: every
identifier ever handed out so far is below it, so identifiers at or above it
are fresh. -/
structure IndexState where
  nextId : Nat
  vectorstore : List (Nat × String)
  docstore : List (Nat × Payload)
deriving DecidableEq, Repr

/-- The state right after `Chroma(...)` and `InMemoryStore()` are constructed
in `__init__`: both stores empty. -/
def emptyState : IndexState :=
  { nextId := 0, vectorstore := [], docstore := [] }

/-- Model of `[str(uuid.uuid4()) for _ in xs]`: `n` fresh identifiers
`next, next+1, …, next+n-1`. -/
def freshIds (next n : Nat) : List Nat :=
  (List.range n).map (fun j => next + j)

/-- The list comprehension
`[Document(page_content=summary, metadata={id_key: ids[i]}) for i, summary in enumerate(summaries)]`:
pairs the i-th summary with `ids[i]`; an out-of-range index raises
(`none`). -/
def mkSummaryDocs : List Nat → List String → Option (List (Nat × String))
  | _, [] => some []
  | [], _ :: _ => none
  | i :: ids, s :: ss => (mkSummaryDocs ids ss).map (fun r => (i, s) :: r)

/-- One `store[k] = v` step of `InMemoryStore.mset`: overwrite the entry for
an existing key in place, else append. -/
def msetOne (store : List (Nat × Payload)) (kv : Nat × Payload) :
    List (Nat × Payload) :=
  if store.any (fun p => p.1 == kv.1) then
    store.map (fun p => if p.1 == kv.1 then kv else p)
  else
    store ++ [kv]

/-- Model of `InMemoryStore.mset`: store each key-value pair in turn. -/
def mset (store : List (Nat × Payload)) (kvs : List (Nat × Payload)) :
    List (Nat × Payload) :=
  kvs.foldl msetOne store

/-- Model of `InMemoryStore.mget` for a single key: the stored value, or `none`. -/
def dget (store : List (Nat × Payload)) (k : Nat) : Option Payload :=
  (store.find? (fun p => p.1 == k)).map (fun p => p.2)

/-- Model of `PDFLoader.bind_data`: three symmetric blocks. Texts: draw fresh ids, add
(id, summary) documents to the vector store, `mset` (id, chunk) pairs into the
doc store. Tables: the same, but the whole block is guarded by
`if self.tables:`. Images: the same as texts, with base64 strings as payload.
Each block builds its summary-document list before touching either store, so
a failing comprehension aborts with no further effect (`Option` bind). -/
def bind_data (s : IndexState)
    (texts : List Chunk) (text_summaries : List String)
    (tables : List Chunk) (table_summaries : List String)
    (images : List String) (image_summaries : List String) :
    Option IndexState := do
  let doc_ids := freshIds s.nextId texts.length
  let summary_texts ← mkSummaryDocs doc_ids text_summaries
  let s1 : IndexState :=
    { nextId := s.nextId + texts.length,
      vectorstore := s.vectorstore ++ summary_texts,
      docstore := mset s.docstore (doc_ids.zip (texts.map Payload.chunk)) }
  let s2 ← (if tables.isEmpty then some s1 else do
    let table_ids := freshIds s1.nextId tables.length
    let summary_tables ← mkSummaryDocs table_ids table_summaries
    some { nextId := s1.nextId + tables.length,
           vectorstore := s1.vectorstore ++ summary_tables,
           docstore := mset s1.docstore (table_ids.zip (tables.map Payload.chunk)) })
  let img_ids := freshIds s2.nextId images.length
  let summary_imgs ← mkSummaryDocs img_ids image_summaries
  some { nextId := s2.nextId + images.length,
         vectorstore := s2.vectorstore ++ summary_imgs,
         docstore := mset s2.docstore (img_ids.zip (images.map Payload.image)) }

/-- One whole ingestion as `__init__` performs it after the stores exist:
split the chunks with `get_text_tables`, extract embedded images with
`get_imagesb64`, summarize everything (`create_summary`,
`create_img_summary`), then `bind_data`. -/
def ingest (s : IndexState) (summ : Chunk → String) (vsumm : String → String)
    (chunks : List Chunk) : Option IndexState :=
  let tt := get_text_tables chunks
  let images := get_imagesb64 chunks
  let ts := create_summary summ tt.1 tt.2
  let is := create_img_summary vsumm images
  bind_data s tt.1 ts.1 tt.2 ts.2 images is

/-- One index operation: the summarizers used and the chunk sequence
ingested. -/
structure Op where
  summ : Chunk → String
  vsumm : String → String
  chunks : List Chunk

/-- A sequence of index operations run against one index state. -/
def runOps : IndexState → List Op → Option IndexState
  | s, [] => some s
  | s, op :: ops => (ingest s op.summ op.vsumm op.chunks).bind (fun s2 => runOps s2 ops)

/-- Number of entries one operation adds to each store: its text chunks, its
table chunks and its extracted images. -/
def opCount (op : Op) : Nat :=
  (get_text_tables op.chunks).1.length + (get_text_tables op.chunks).2.length +
    (get_imagesb64 op.chunks).length

/-- Modelled from the spec: the nearest-neighbor collaborator behind `search`
(`Chroma.similarity_search` driven by `MultiVectorRetriever`, which lives in
the LangChain libraries, not in `src/`). Given the query, `top_k` and the
summary collection, it returns the identifiers of the closest entries,
closest first. -/
def NNFun : Type :=
  String → Nat → List (Nat × String) → List Nat

/-- Modelled from the spec: the contract of the nearest-neighbor collaborator
at one query/`top_k`/collection triple: it returns at most `top_k`
identifiers, pairwise distinct, each taken from the summary collection. -/
def NNContract (nn : NNFun) (q : String) (k : Nat)
    (store : List (Nat × String)) : Prop :=
  (nn q k store).length ≤ k ∧ (nn q k store).Nodup ∧
    ∀ i ∈ nn q k store, i ∈ store.map Prod.fst

/-- Modelled from the spec: `search` as `MultiVectorRetriever` realizes it
(library code, not in `src/`): run the similarity search over the summary
collection to get identifiers, resolve each identifier against the content
store (`mget`), and return the resolved original payloads in rank order,
dropping identifiers with no content-store entry. -/
def search (s : IndexState) (nn : NNFun) (q : String) (k : Nat) :
    List Payload :=
  (nn q k s.vectorstore).filterMap (fun i => dget s.docstore i)

/-- The environment `__init__` reads: `os.getenv` result for each of the two
API keys (`none` models an unset variable). -/
structure Env where
  together_api_key : Option String
  google_api_key : Option String

/-- Python truthiness of an `os.getenv` result: `None` and the empty string
are falsy. -/
def truthy : Option String → Bool
  | none => false
  | some s => !s.isEmpty

/-- Model of `PDFLoader.__init__`: read and validate the two API keys first, raising
`ValueError` if either is falsy; only then construct the LLM clients, run
`partition_pdf` (modelled as the given chunk list), summarize, create the
empty stores and run `bind_data`. A key failure aborts before any of that
work, so the result cannot depend on the chunks or summarizers. -/
def init (env : Env) (chunks : List Chunk) (summ : Chunk → String)
    (vsumm : String → String) : Except String IndexState :=
  if !truthy env.together_api_key then
    Except.error "TOGETHER_API_KEY not found in environment variables"
  else if !truthy env.google_api_key then
    Except.error "GOOGLE_API_KEY not found in environment variables"
  else
    match ingest emptyState summ vsumm chunks with
    | some s => Except.ok s
    | none => Except.error "IndexError"

/-- Every identifier in the doc store is below the fresh-id counter. -/
def keyBound (s : IndexState) : Prop :=
  ∀ k ∈ s.docstore.map Prod.fst, k < s.nextId

/-- Well-formedness of an index state: identifiers are bounded by the fresh
counter, the vector store and the doc store list exactly the same identifiers
in the same order, and identifiers are pairwise distinct. -/
def WF (s : IndexState) : Prop :=
  keyBound s ∧ s.vectorstore.map Prod.fst = s.docstore.map Prod.fst ∧
    (s.docstore.map Prod.fst).Nodup

theorem freshIds_length (next n : Nat) : (freshIds next n).length = n := by
  simp [freshIds]

theorem mem_freshIds {k next n : Nat} :
    k ∈ freshIds next n ↔ next ≤ k ∧ k < next + n := by
  simp only [freshIds, List.mem_map, List.mem_range]
  constructor
  · rintro ⟨j, hj, rfl⟩; omega
  · rintro ⟨h1, h2⟩; exact ⟨k - next, by omega, by omega⟩

theorem freshIds_nodup (next n : Nat) : (freshIds next n).Nodup := by
  refine (List.nodup_range n).map ?_
  intro a b h
  have h2 : next + a = next + b := h
  omega

theorem mkSummaryDocs_eq_zip :
    ∀ (ids : List Nat) (ss : List String), ss.length ≤ ids.length →
      mkSummaryDocs ids ss = some (ids.zip ss)
  | ids, [], _ => by cases ids <;> simp [mkSummaryDocs]
  | [], _ :: _, h => by simp at h
  | i :: ids, s :: ss, h => by
    have ih := mkSummaryDocs_eq_zip ids ss (by simpa using h)
    simp [mkSummaryDocs, ih]

theorem msetOne_not_mem (store : List (Nat × Payload)) (kv : Nat × Payload)
    (h : kv.1 ∉ store.map Prod.fst) : msetOne store kv = store ++ [kv] := by
  have hfalse : store.any (fun p => p.1 == kv.1) = false := by
    rw [List.any_eq_false]
    intro p hp
    simp only [beq_iff_eq]
    intro hpe
    exact h (List.mem_map.mpr ⟨p, hp, hpe⟩)
  simp [msetOne, hfalse]

theorem mset_append :
    ∀ (kvs store : List (Nat × Payload)),
      (kvs.map Prod.fst).Nodup →
      (∀ k ∈ kvs.map Prod.fst, k ∉ store.map Prod.fst) →
      mset store kvs = store ++ kvs
  | [], store, _, _ => by simp [mset]
  | kv :: kvs, store, hnd, hdisj => by
    have h1 : kv.1 ∉ store.map Prod.fst := hdisj kv.1 (by simp)
    have hnd' : (kv.1 :: kvs.map Prod.fst).Nodup := by simpa using hnd
    have hnd2 : (kvs.map Prod.fst).Nodup := hnd'.of_cons
    have hhead : kv.1 ∉ kvs.map Prod.fst := (List.nodup_cons.mp hnd').1
    have hdisj2 : ∀ k ∈ kvs.map Prod.fst, k ∉ (store ++ [kv]).map Prod.fst := by
      intro k hk
      simp only [List.map_append, List.mem_append, List.map_cons, List.map_nil,
        List.mem_singleton, not_or]
      exact ⟨hdisj k (by simp [hk]), by rintro rfl; exact hhead hk⟩
    have step : mset store (kv :: kvs) = mset (store ++ [kv]) kvs := by
      simp [mset, msetOne_not_mem store kv h1]
    rw [step, mset_append kvs (store ++ [kv]) hnd2 hdisj2, List.append_assoc]
    rfl

theorem mset_fresh (store : List (Nat × Payload)) (next n : Nat)
    (vs : List Payload) (hlen : n ≤ vs.length)
    (hb : ∀ k ∈ store.map Prod.fst, k < next) :
    mset store ((freshIds next n).zip vs) = store ++ (freshIds next n).zip vs := by
  have hkeys : ((freshIds next n).zip vs).map Prod.fst = freshIds next n :=
    List.map_fst_zip _ _ (by rw [freshIds_length]; exact hlen)
  refine mset_append _ _ ?_ ?_
  · rw [hkeys]; exact freshIds_nodup next n
  · rw [hkeys]
    intro k hk hmem
    have := hb k hmem
    have := (mem_freshIds.mp hk).1
    omega

theorem keys_append_fresh_bound (store : List (Nat × Payload)) (next n : Nat)
    (vs : List Payload) (hlen : n ≤ vs.length)
    (hb : ∀ k ∈ store.map Prod.fst, k < next) :
    ∀ k ∈ (store ++ (freshIds next n).zip vs).map Prod.fst, k < next + n := by
  intro k hk
  rw [List.map_append] at hk
  rcases List.mem_append.mp hk with h | h
  · have := hb k h; omega
  · rw [List.map_fst_zip _ _ (by rw [freshIds_length]; exact hlen)] at h
    have := (mem_freshIds.mp h).2; omega

theorem bind_data_eq (s : IndexState) (texts tables : List Chunk)
    (images : List String) (tsum tbsum isum : List String)
    (hb : keyBound s)
    (h1 : tsum.length = texts.length) (h2 : tbsum.length = tables.length)
    (h3 : isum.length = images.length) :
    bind_data s texts tsum tables tbsum images isum = some
      { nextId := s.nextId + texts.length + tables.length + images.length,
        vectorstore := s.vectorstore ++ (freshIds s.nextId texts.length).zip tsum
          ++ (freshIds (s.nextId + texts.length) tables.length).zip tbsum
          ++ (freshIds (s.nextId + texts.length + tables.length) images.length).zip isum,
        docstore := s.docstore
          ++ (freshIds s.nextId texts.length).zip (texts.map Payload.chunk)
          ++ (freshIds (s.nextId + texts.length) tables.length).zip (tables.map Payload.chunk)
          ++ (freshIds (s.nextId + texts.length + tables.length) images.length).zip
              (images.map Payload.image) } := by
  have hmk1 : mkSummaryDocs (freshIds s.nextId texts.length) tsum
      = some ((freshIds s.nextId texts.length).zip tsum) :=
    mkSummaryDocs_eq_zip _ _ (by rw [freshIds_length]; exact le_of_eq h1)
  have hms1 : mset s.docstore
        ((freshIds s.nextId texts.length).zip (texts.map Payload.chunk))
      = s.docstore ++ (freshIds s.nextId texts.length).zip (texts.map Payload.chunk) :=
    mset_fresh _ _ _ _ (by simp) hb
  have hb1 : ∀ k ∈ (s.docstore
        ++ (freshIds s.nextId texts.length).zip (texts.map Payload.chunk)).map Prod.fst,
      k < s.nextId + texts.length :=
    keys_append_fresh_bound _ _ _ _ (by simp) hb
  by_cases htab : tables = []
  · subst htab
    have htb : tbsum = [] := List.length_eq_zero.mp (by simpa using h2)
    subst htb
    have hmk3 : mkSummaryDocs (freshIds (s.nextId + texts.length) images.length) isum
        = some ((freshIds (s.nextId + texts.length) images.length).zip isum) :=
      mkSummaryDocs_eq_zip _ _ (by rw [freshIds_length]; exact le_of_eq h3)
    have hms3 : mset
          (s.docstore ++ (freshIds s.nextId texts.length).zip (texts.map Payload.chunk))
          ((freshIds (s.nextId + texts.length) images.length).zip (images.map Payload.image))
        = (s.docstore ++ (freshIds s.nextId texts.length).zip (texts.map Payload.chunk))
          ++ (freshIds (s.nextId + texts.length) images.length).zip (images.map Payload.image) :=
      mset_fresh _ _ _ _ (by simp) hb1
    simp [bind_data, hmk1, hms1, hmk3, hms3]
  · have htab2 : tables.isEmpty = false := by
      simpa [List.isEmpty_iff] using htab
    have hmk2 : mkSummaryDocs (freshIds (s.nextId + texts.length) tables.length) tbsum
        = some ((freshIds (s.nextId + texts.length) tables.length).zip tbsum) :=
      mkSummaryDocs_eq_zip _ _ (by rw [freshIds_length]; exact le_of_eq h2)
    have hms2 : mset
          (s.docstore ++ (freshIds s.nextId texts.length).zip (texts.map Payload.chunk))
          ((freshIds (s.nextId + texts.length) tables.length).zip (tables.map Payload.chunk))
        = (s.docstore ++ (freshIds s.nextId texts.length).zip (texts.map Payload.chunk))
          ++ (freshIds (s.nextId + texts.length) tables.length).zip (tables.map Payload.chunk) :=
      mset_fresh _ _ _ _ (by simp) hb1
    have hb2 : ∀ k ∈ ((s.docstore
          ++ (freshIds s.nextId texts.length).zip (texts.map Payload.chunk))
          ++ (freshIds (s.nextId + texts.length) tables.length).zip
              (tables.map Payload.chunk)).map Prod.fst,
        k < s.nextId + texts.length + tables.length :=
      keys_append_fresh_bound _ _ _ _ (by simp) hb1
    have hmk3 : mkSummaryDocs
          (freshIds (s.nextId + texts.length + tables.length) images.length) isum
        = some ((freshIds (s.nextId + texts.length + tables.length) images.length).zip isum) :=
      mkSummaryDocs_eq_zip _ _ (by rw [freshIds_length]; exact le_of_eq h3)
    have hms3 : mset
          ((s.docstore ++ (freshIds s.nextId texts.length).zip (texts.map Payload.chunk))
            ++ (freshIds (s.nextId + texts.length) tables.length).zip
                (tables.map Payload.chunk))
          ((freshIds (s.nextId + texts.length + tables.length) images.length).zip
            (images.map Payload.image))
        = ((s.docstore ++ (freshIds s.nextId texts.length).zip (texts.map Payload.chunk))
            ++ (freshIds (s.nextId + texts.length) tables.length).zip
                (tables.map Payload.chunk))
          ++ (freshIds (s.nextId + texts.length + tables.length) images.length).zip
              (images.map Payload.image) :=
      mset_fresh _ _ _ _ (by simp) hb2
    simp [bind_data, htab2, hmk1, hms1, hmk2, hms2, hmk3]
    simpa using hms3

theorem zip_fresh_keys {β : Type} (next n : Nat) (vs : List β) (h : n ≤ vs.length) :
    ((freshIds next n).zip vs).map Prod.fst = freshIds next n :=
  List.map_fst_zip _ _ (by rw [freshIds_length]; exact h)

theorem bound_append_fresh {l : List Nat} {next n : Nat}
    (hb : ∀ k ∈ l, k < next) : ∀ k ∈ l ++ freshIds next n, k < next + n := by
  intro k hk
  rcases List.mem_append.mp hk with h | h
  · have := hb k h; omega
  · have := (mem_freshIds.mp h).2; omega

theorem nodup_append_fresh {l : List Nat} {next n : Nat}
    (hnd : l.Nodup) (hb : ∀ k ∈ l, k < next) : (l ++ freshIds next n).Nodup := by
  rw [List.nodup_append]
  refine ⟨hnd, freshIds_nodup _ _, ?_⟩
  intro a ha ha2
  have := hb a ha
  have := (mem_freshIds.mp ha2).1
  omega

theorem WF_emptyState : WF emptyState := by
  refine ⟨?_, ?_, ?_⟩ <;> simp [keyBound, emptyState]

theorem ingest_eq (s : IndexState) (summ : Chunk → String) (vsumm : String → String)
    (chunks : List Chunk) (hb : keyBound s) :
    ingest s summ vsumm chunks = some
      { nextId := s.nextId + (get_text_tables chunks).1.length
          + (get_text_tables chunks).2.length + (get_imagesb64 chunks).length,
        vectorstore := s.vectorstore
          ++ (freshIds s.nextId (get_text_tables chunks).1.length).zip
              ((get_text_tables chunks).1.map summ)
          ++ (freshIds (s.nextId + (get_text_tables chunks).1.length)
              (get_text_tables chunks).2.length).zip ((get_text_tables chunks).2.map summ)
          ++ (freshIds (s.nextId + (get_text_tables chunks).1.length
              + (get_text_tables chunks).2.length) (get_imagesb64 chunks).length).zip
              ((get_imagesb64 chunks).map vsumm),
        docstore := s.docstore
          ++ (freshIds s.nextId (get_text_tables chunks).1.length).zip
              ((get_text_tables chunks).1.map Payload.chunk)
          ++ (freshIds (s.nextId + (get_text_tables chunks).1.length)
              (get_text_tables chunks).2.length).zip
              ((get_text_tables chunks).2.map Payload.chunk)
          ++ (freshIds (s.nextId + (get_text_tables chunks).1.length
              + (get_text_tables chunks).2.length) (get_imagesb64 chunks).length).zip
              ((get_imagesb64 chunks).map Payload.image) } := by
  have h := bind_data_eq s (get_text_tables chunks).1 (get_text_tables chunks).2
    (get_imagesb64 chunks) ((get_text_tables chunks).1.map summ)
    ((get_text_tables chunks).2.map summ) ((get_imagesb64 chunks).map vsumm)
    hb (by simp) (by simp) (by simp)
  exact h

theorem ingest_state (s : IndexState) (summ : Chunk → String) (vsumm : String → String)
    (chunks : List Chunk) (hwf : WF s) :
    ∃ s2, ingest s summ vsumm chunks = some s2 ∧ WF s2 ∧
      s2.nextId = s.nextId + opCount ⟨summ, vsumm, chunks⟩ ∧
      ∃ v d, s2.vectorstore = s.vectorstore ++ v ∧ s2.docstore = s.docstore ++ d ∧
        v.length = opCount ⟨summ, vsumm, chunks⟩ ∧
        d.length = opCount ⟨summ, vsumm, chunks⟩ ∧
        d.map Prod.fst = v.map Prod.fst ∧
        List.Disjoint (d.map Prod.fst) (s.docstore.map Prod.fst) := by
  obtain ⟨hb, hlink, hnd⟩ := hwf
  refine ⟨_, ingest_eq s summ vsumm chunks hb, ?_, ?_, ?_⟩
  · have hz1 : ((freshIds s.nextId (get_text_tables chunks).1.length).zip
        ((get_text_tables chunks).1.map Payload.chunk)).map Prod.fst
        = freshIds s.nextId (get_text_tables chunks).1.length :=
      zip_fresh_keys _ _ _ (by simp)
    have hz2 : ((freshIds (s.nextId + (get_text_tables chunks).1.length)
        (get_text_tables chunks).2.length).zip
        ((get_text_tables chunks).2.map Payload.chunk)).map Prod.fst
        = freshIds (s.nextId + (get_text_tables chunks).1.length)
            (get_text_tables chunks).2.length :=
      zip_fresh_keys _ _ _ (by simp)
    have hz3 : ((freshIds (s.nextId + (get_text_tables chunks).1.length
        + (get_text_tables chunks).2.length) (get_imagesb64 chunks).length).zip
        ((get_imagesb64 chunks).map Payload.image)).map Prod.fst
        = freshIds (s.nextId + (get_text_tables chunks).1.length
            + (get_text_tables chunks).2.length) (get_imagesb64 chunks).length :=
      zip_fresh_keys _ _ _ (by simp)
    have hv1 : ((freshIds s.nextId (get_text_tables chunks).1.length).zip
        ((get_text_tables chunks).1.map summ)).map Prod.fst
        = freshIds s.nextId (get_text_tables chunks).1.length :=
      zip_fresh_keys _ _ _ (by simp)
    have hv2 : ((freshIds (s.nextId + (get_text_tables chunks).1.length)
        (get_text_tables chunks).2.length).zip
        ((get_text_tables chunks).2.map summ)).map Prod.fst
        = freshIds (s.nextId + (get_text_tables chunks).1.length)
            (get_text_tables chunks).2.length :=
      zip_fresh_keys _ _ _ (by simp)
    have hv3 : ((freshIds (s.nextId + (get_text_tables chunks).1.length
        + (get_text_tables chunks).2.length) (get_imagesb64 chunks).length).zip
        ((get_imagesb64 chunks).map vsumm)).map Prod.fst
        = freshIds (s.nextId + (get_text_tables chunks).1.length
            + (get_text_tables chunks).2.length) (get_imagesb64 chunks).length :=
      zip_fresh_keys _ _ _ (by simp)
    have hb1 := bound_append_fresh (n := (get_text_tables chunks).1.length) hb
    have hb2 := bound_append_fresh (n := (get_text_tables chunks).2.length) hb1
    have hb3 := bound_append_fresh (n := (get_imagesb64 chunks).length) hb2
    refine ⟨?_, ?_, ?_⟩
    · intro k hk
      simp only [List.map_append, hz1, hz2, hz3] at hk
      exact hb3 k (by simpa [List.append_assoc] using hk)
    · simp only [List.map_append, hz1, hz2, hz3, hv1, hv2, hv3, hlink]
    · simp only [List.map_append, hz1, hz2, hz3]
      have n1 := nodup_append_fresh (n := (get_text_tables chunks).1.length) hnd hb
      have n2 := nodup_append_fresh (n := (get_text_tables chunks).2.length) n1 hb1
      exact nodup_append_fresh (n := (get_imagesb64 chunks).length) n2 hb2
  · simp [opCount]; omega
  · refine ⟨(freshIds s.nextId (get_text_tables chunks).1.length).zip
        ((get_text_tables chunks).1.map summ)
      ++ (freshIds (s.nextId + (get_text_tables chunks).1.length)
          (get_text_tables chunks).2.length).zip ((get_text_tables chunks).2.map summ)
      ++ (freshIds (s.nextId + (get_text_tables chunks).1.length
          + (get_text_tables chunks).2.length) (get_imagesb64 chunks).length).zip
          ((get_imagesb64 chunks).map vsumm),
      (freshIds s.nextId (get_text_tables chunks).1.length).zip
        ((get_text_tables chunks).1.map Payload.chunk)
      ++ (freshIds (s.nextId + (get_text_tables chunks).1.length)
          (get_text_tables chunks).2.length).zip
          ((get_text_tables chunks).2.map Payload.chunk)
      ++ (freshIds (s.nextId + (get_text_tables chunks).1.length
          + (get_text_tables chunks).2.length) (get_imagesb64 chunks).length).zip
          ((get_imagesb64 chunks).map Payload.image), ?_, ?_, ?_, ?_, ?_, ?_⟩
    · simp [List.append_assoc]
    · simp [List.append_assoc]
    · simp [opCount, freshIds_length]; omega
    · simp [opCount, freshIds_length]; omega
    · simp only [List.map_append]
      rw [zip_fresh_keys _ _ _ (by simp), zip_fresh_keys _ _ _ (by simp),
        zip_fresh_keys _ _ _ (by simp), zip_fresh_keys _ _ _ (by simp),
        zip_fresh_keys _ _ _ (by simp), zip_fresh_keys _ _ _ (by simp)]
    · intro k hk hk2
      simp only [List.map_append] at hk
      rw [zip_fresh_keys _ _ _ (by simp), zip_fresh_keys _ _ _ (by simp),
        zip_fresh_keys _ _ _ (by simp)] at hk
      have hlt := hb k hk2
      rcases List.mem_append.mp hk with h | h
      · rcases List.mem_append.mp h with h | h
        · have := (mem_freshIds.mp h).1; omega
        · have := (mem_freshIds.mp h).1; omega
      · have := (mem_freshIds.mp h).1; omega

theorem runOps_WF (ops : List Op) : ∀ s : IndexState, WF s →
    ∃ s2, runOps s ops = some s2 ∧ WF s2 := by
  induction ops with
  | nil => intro s hs; exact ⟨s, rfl, hs⟩
  | cons op ops ih =>
    intro s hs
    obtain ⟨s1, h1, hwf1, -, -⟩ := ingest_state s op.summ op.vsumm op.chunks hs
    obtain ⟨s2, h2, hwf2⟩ := ih s1 hwf1
    exact ⟨s2, by simp [runOps, h1, h2], hwf2⟩

/-- C1: after any sequence of index operations on the freshly constructed
index, the summary collection (vector store) and the content store list
exactly the same identifiers in the same order with no duplicates — every
identifier on one side has exactly one corresponding entry on the other —
so the two stores always have equal cardinality. -/
theorem C1_bijective_linkage (ops : List Op) :
    ∃ s, runOps emptyState ops = some s ∧
      s.vectorstore.map Prod.fst = s.docstore.map Prod.fst ∧
      (s.docstore.map Prod.fst).Nodup ∧
      s.vectorstore.length = s.docstore.length := by
  obtain ⟨s, hrun, hwf⟩ := runOps_WF ops emptyState WF_emptyState
  obtain ⟨hb, hlink, hnd⟩ : keyBound s ∧
      s.vectorstore.map Prod.fst = s.docstore.map Prod.fst ∧
      (s.docstore.map Prod.fst).Nodup := hwf
  refine ⟨s, hrun, hlink, hnd, ?_⟩
  have := congrArg List.length hlink
  simpa using this

/-- C3: one `bind_data` call, fed one summary per chunk as `__init__` does,
grows both the summary collection and the content store by exactly the
number of input chunks (texts + tables + images); both stores are extended
by pure appends, so no existing entry is ever overwritten, and the empty
input sequence is a no-op. -/
theorem C3_growth (s : IndexState) (texts tables : List Chunk)
    (images : List String) (tsum tbsum isum : List String)
    (hb : keyBound s) (h1 : tsum.length = texts.length)
    (h2 : tbsum.length = tables.length) (h3 : isum.length = images.length) :
    ∃ s2, bind_data s texts tsum tables tbsum images isum = some s2 ∧
      s2.vectorstore.length
        = s.vectorstore.length + (texts.length + tables.length + images.length) ∧
      s2.docstore.length
        = s.docstore.length + (texts.length + tables.length + images.length) ∧
      (∃ v, s2.vectorstore = s.vectorstore ++ v) ∧
      (∃ d, s2.docstore = s.docstore ++ d) ∧
      (texts = [] → tables = [] → images = [] → s2 = s) := by
  refine ⟨_, bind_data_eq s texts tables images tsum tbsum isum hb h1 h2 h3,
    ?_, ?_, ?_, ?_, ?_⟩
  · simp [freshIds_length, h1, h2, h3]; omega
  · simp [freshIds_length]; omega
  · exact ⟨(freshIds s.nextId texts.length).zip tsum
      ++ ((freshIds (s.nextId + texts.length) tables.length).zip tbsum
      ++ (freshIds (s.nextId + texts.length + tables.length) images.length).zip isum),
      by simp [List.append_assoc]⟩
  · exact ⟨(freshIds s.nextId texts.length).zip (texts.map Payload.chunk)
      ++ ((freshIds (s.nextId + texts.length) tables.length).zip
            (tables.map Payload.chunk)
      ++ (freshIds (s.nextId + texts.length + tables.length) images.length).zip
            (images.map Payload.image)),
      by simp [List.append_assoc]⟩
  · rintro rfl rfl rfl
    simp [freshIds]

/-- Witness for C3 at a concrete input: one text chunk and one image, one
summary each, starting from the empty index. -/
theorem C3_growth_witness :
    ∃ s2, bind_data emptyState [⟨"CompositeElement", "hello", []⟩] ["a text"]
        [] [] ["imgb64"] ["an image"] = some s2 ∧
      s2.vectorstore.length = emptyState.vectorstore.length + (1 + 0 + 1) ∧
      s2.docstore.length = emptyState.docstore.length + (1 + 0 + 1) ∧
      (∃ v, s2.vectorstore = emptyState.vectorstore ++ v) ∧
      (∃ d, s2.docstore = emptyState.docstore ++ d) ∧
      ([⟨"CompositeElement", "hello", []⟩] = ([] : List Chunk) → [] = ([] : List Chunk)
        → ["imgb64"] = ([] : List String) → s2 = emptyState) := by
  have h := C3_growth emptyState [⟨"CompositeElement", "hello", []⟩] []
    ["imgb64"] ["a text"] [] ["an image"]
    (by intro k hk; simp [emptyState] at hk) (by rfl) (by rfl) (by rfl)
  simpa using h

/-- C4: identifiers are pairwise distinct across all index operations and
never reused or mutated: any run of operations from the fresh index succeeds
with a duplicate-free identifier list in both stores, and re-running the
identical operation a second time only appends a second batch of entries of
the same size whose identifiers are disjoint from the first batch's — no
deduplication or merging. -/
theorem C4_distinct_ids (ops : List Op) (op : Op) :
    (∃ s, runOps emptyState ops = some s ∧ (s.docstore.map Prod.fst).Nodup ∧
      (s.vectorstore.map Prod.fst).Nodup) ∧
    (∃ s1 s2 d2, ingest emptyState op.summ op.vsumm op.chunks = some s1 ∧
      ingest s1 op.summ op.vsumm op.chunks = some s2 ∧
      s2.docstore = s1.docstore ++ d2 ∧
      s1.docstore.length = opCount op ∧ d2.length = opCount op ∧
      List.Disjoint (d2.map Prod.fst) (s1.docstore.map Prod.fst)) := by
  constructor
  · obtain ⟨s, hrun, hwf⟩ := runOps_WF ops emptyState WF_emptyState
    obtain ⟨hb, hlink, hnd⟩ : keyBound s ∧
        s.vectorstore.map Prod.fst = s.docstore.map Prod.fst ∧
        (s.docstore.map Prod.fst).Nodup := hwf
    exact ⟨s, hrun, hnd, by rw [hlink]; exact hnd⟩
  · obtain ⟨s1, h1, hwf1, hn1, v1, d1, hv1, hd1, hlv1, hld1, hk1, hdisj1⟩ :=
      ingest_state emptyState op.summ op.vsumm op.chunks WF_emptyState
    obtain ⟨s2, h2, hwf2, hn2, v2, d2, hv2, hd2, hlv2, hld2, hk2, hdisj2⟩ :=
      ingest_state s1 op.summ op.vsumm op.chunks hwf1
    refine ⟨s1, s2, d2, h1, h2, hd2, ?_, hld2, hdisj2⟩
    rw [hd1]
    simpa [emptyState] using hld1

theorem get_text_tables_skip (c : Chunk)
    (h1 : strContains c.typeName "Table" = false)
    (h2 : strContains c.typeName "CompositeElement" = false) :
    ∀ xs ys : List Chunk, get_text_tables (xs ++ c :: ys) = get_text_tables (xs ++ ys) := by
  intro xs
  induction xs with
  | nil => intro ys; simp [get_text_tables, h1, h2]
  | cons a as ih => intro ys; simp [get_text_tables, ih ys]

theorem get_imagesb64_skip (c : Chunk)
    (h2 : strContains c.typeName "CompositeElement" = false) :
    ∀ xs ys : List Chunk, get_imagesb64 (xs ++ c :: ys) = get_imagesb64 (xs ++ ys) := by
  intro xs
  induction xs with
  | nil => intro ys; simp [get_imagesb64, h2]
  | cons a as ih => intro ys; simp [get_imagesb64, ih ys]

theorem get_imagesb64_append : ∀ xs ys : List Chunk,
    get_imagesb64 (xs ++ ys) = get_imagesb64 xs ++ get_imagesb64 ys := by
  intro xs
  induction xs with
  | nil => intro ys; simp [get_imagesb64]
  | cons a as ih => intro ys; simp [get_imagesb64, ih ys, List.append_assoc]

/-- C9: a partitioned chunk whose runtime type is neither a table nor a
composite text element is silently dropped: ingesting a chunk list that
contains it gives exactly the same index state as ingesting the list without
it, so such a chunk is never summarized and never contributes an entry to
the summary collection or the content store. -/
theorem C9_other_chunks_excluded (s : IndexState) (summ : Chunk → String)
    (vsumm : String → String) (xs ys : List Chunk) (c : Chunk)
    (h1 : strContains c.typeName "Table" = false)
    (h2 : strContains c.typeName "CompositeElement" = false) :
    ingest s summ vsumm (xs ++ c :: ys) = ingest s summ vsumm (xs ++ ys) := by
  simp only [ingest, get_text_tables_skip c h1 h2, get_imagesb64_skip c h2]

/-- Witness for C9: a `Title` chunk appended after a composite chunk
contributes nothing to ingestion. -/
theorem C9_witness :
    ingest emptyState (fun c => c.content) (fun b => b)
        ([⟨"CompositeElement", "t1", []⟩] ++ ⟨"Title", "head", []⟩ :: [])
      = ingest emptyState (fun c => c.content) (fun b => b)
        ([⟨"CompositeElement", "t1", []⟩] ++ []) :=
  C9_other_chunks_excluded emptyState (fun c => c.content) (fun b => b)
    [⟨"CompositeElement", "t1", []⟩] [] ⟨"Title", "head", []⟩ (by decide) (by decide)

/-- C10: images are drawn only from the sub-elements embedded in composite
text chunks — a non-composite chunk contributes no images even if it carries
image sub-elements — composite chunks contribute their embedded images in
document order, and after ingestion each extracted image is its own
`Payload.image` entry in the content store under its own fresh identifier,
distinct from the identifier of every text and table entry (all identifiers
are pairwise distinct). -/
theorem C10_images_from_composites (s : IndexState) (summ : Chunk → String)
    (vsumm : String → String) (chunks xs ys : List Chunk) (c : Chunk)
    (hwf : WF s) (hnc : strContains c.typeName "CompositeElement" = false) :
    get_imagesb64 (xs ++ c :: ys) = get_imagesb64 (xs ++ ys) ∧
    (∀ d : Chunk, strContains d.typeName "CompositeElement" = true →
      get_imagesb64 (xs ++ d :: ys)
        = get_imagesb64 xs ++ imagesOfElements d.orig_elements ++ get_imagesb64 ys) ∧
    ∃ s2, ingest s summ vsumm chunks = some s2 ∧
      s2.docstore = s.docstore
        ++ (freshIds s.nextId (get_text_tables chunks).1.length).zip
            ((get_text_tables chunks).1.map Payload.chunk)
        ++ (freshIds (s.nextId + (get_text_tables chunks).1.length)
            (get_text_tables chunks).2.length).zip
            ((get_text_tables chunks).2.map Payload.chunk)
        ++ (freshIds (s.nextId + (get_text_tables chunks).1.length
            + (get_text_tables chunks).2.length) (get_imagesb64 chunks).length).zip
            ((get_imagesb64 chunks).map Payload.image) ∧
      (s2.docstore.map Prod.fst).Nodup := by
  refine ⟨get_imagesb64_skip c hnc xs ys, ?_, ?_⟩
  · intro d hd
    rw [get_imagesb64_append xs (d :: ys)]
    simp [get_imagesb64, hd, List.append_assoc]
  · obtain ⟨s2, hing, hwf2, -, -⟩ := ingest_state s summ vsumm chunks hwf
    obtain ⟨-, -, hnd2⟩ : keyBound s2 ∧
        s2.vectorstore.map Prod.fst = s2.docstore.map Prod.fst ∧
        (s2.docstore.map Prod.fst).Nodup := hwf2
    have hb : keyBound s := hwf.1
    have heq := ingest_eq s summ vsumm chunks hb
    have hs2 := Option.some.inj (hing.symm.trans heq)
    refine ⟨s2, hing, ?_, hnd2⟩
    rw [hs2]

/-- Witness for C10 at a concrete input: a standalone `Image` chunk is
skipped, a composite chunk contributes its embedded image, and the image is
indexed as its own entry. -/
theorem C10_witness :
    get_imagesb64 ([] ++ (⟨"Image", "", []⟩ : Chunk) :: []) = get_imagesb64 ([] ++ []) ∧
    (∀ d : Chunk, strContains d.typeName "CompositeElement" = true →
      get_imagesb64 ([] ++ d :: [])
        = get_imagesb64 [] ++ imagesOfElements d.orig_elements ++ get_imagesb64 []) ∧
    ∃ s2, ingest emptyState (fun c => c.content) (fun b => b)
        [⟨"CompositeElement", "txt", [⟨"Image", "B64"⟩]⟩] = some s2 ∧
      s2.docstore = emptyState.docstore
        ++ (freshIds emptyState.nextId
            (get_text_tables [⟨"CompositeElement", "txt", [⟨"Image", "B64"⟩]⟩]).1.length).zip
            ((get_text_tables [⟨"CompositeElement", "txt", [⟨"Image", "B64"⟩]⟩]).1.map
              Payload.chunk)
        ++ (freshIds (emptyState.nextId
            + (get_text_tables [⟨"CompositeElement", "txt", [⟨"Image", "B64"⟩]⟩]).1.length)
            (get_text_tables [⟨"CompositeElement", "txt", [⟨"Image", "B64"⟩]⟩]).2.length).zip
            ((get_text_tables [⟨"CompositeElement", "txt", [⟨"Image", "B64"⟩]⟩]).2.map
              Payload.chunk)
        ++ (freshIds (emptyState.nextId
            + (get_text_tables [⟨"CompositeElement", "txt", [⟨"Image", "B64"⟩]⟩]).1.length
            + (get_text_tables [⟨"CompositeElement", "txt", [⟨"Image", "B64"⟩]⟩]).2.length)
            (get_imagesb64 [⟨"CompositeElement", "txt", [⟨"Image", "B64"⟩]⟩]).length).zip
            ((get_imagesb64 [⟨"CompositeElement", "txt", [⟨"Image", "B64"⟩]⟩]).map
              Payload.image) ∧
      (s2.docstore.map Prod.fst).Nodup :=
  C10_images_from_composites emptyState (fun c => c.content) (fun b => b)
    [⟨"CompositeElement", "txt", [⟨"Image", "B64"⟩]⟩] [] [] ⟨"Image", "", []⟩
    WF_emptyState (by decide)

/-- Counterexample to C5 as stated: with a summarizer that returns the empty
string, the index operation does not fail — no `EmptyContentError` exists in
the code — it succeeds and inserts the empty summary into the summary
collection, with the original chunk in the content store. -/
theorem C5_counterexample :
    ingest emptyState (fun _ => "") (fun b => b)
        [⟨"CompositeElement", "some text", []⟩]
      = some { nextId := 1, vectorstore := [(0, "")],
               docstore := [(0, Payload.chunk ⟨"CompositeElement", "some text", []⟩)] } := by
  rfl

/-- C5 amended: the index operation performs no validation of summaries:
when the summarizer returns the empty string for every chunk, ingestion
still succeeds, and one (identifier, "") entry per indexed chunk is appended
to the summary collection. -/
theorem C5_amended_no_validation (s : IndexState) (chunks : List Chunk)
    (hb : keyBound s) :
    ∃ s2, ingest s (fun _ => "") (fun _ => "") chunks = some s2 ∧
      ∃ v, s2.vectorstore = s.vectorstore ++ v ∧
        v.length = opCount ⟨fun _ => "", fun _ => "", chunks⟩ ∧
        ∀ e ∈ v, e.2 = "" := by
  refine ⟨_, ingest_eq s (fun _ => "") (fun _ => "") chunks hb,
    (freshIds s.nextId (get_text_tables chunks).1.length).zip
        ((get_text_tables chunks).1.map (fun _ => ""))
      ++ ((freshIds (s.nextId + (get_text_tables chunks).1.length)
          (get_text_tables chunks).2.length).zip
          ((get_text_tables chunks).2.map (fun _ => ""))
      ++ (freshIds (s.nextId + (get_text_tables chunks).1.length
          + (get_text_tables chunks).2.length) (get_imagesb64 chunks).length).zip
          ((get_imagesb64 chunks).map (fun _ => ""))),
    by simp [List.append_assoc], ?_, ?_⟩
  · simp [opCount, freshIds_length]
    omega
  · intro e he
    obtain ⟨i, str⟩ := e
    rcases List.mem_append.mp he with h | h
    · have := (List.of_mem_zip h).2
      simp at this
      simpa using this.2
    · rcases List.mem_append.mp h with h | h
      · have := (List.of_mem_zip h).2
        simp at this
        simpa using this.2
      · have := (List.of_mem_zip h).2
        simp at this
        simpa using this.2

/-- Witness for the amended C5 at a concrete input: one composite chunk,
empty-string summarizer. -/
theorem C5_amended_witness :
    ∃ s2, ingest emptyState (fun _ => "") (fun _ => "")
        [⟨"CompositeElement", "some text", []⟩] = some s2 ∧
      ∃ v, s2.vectorstore = emptyState.vectorstore ++ v ∧
        v.length = opCount ⟨fun _ => "", fun _ => "",
          [⟨"CompositeElement", "some text", []⟩]⟩ ∧
        ∀ e ∈ v, e.2 = "" :=
  C5_amended_no_validation emptyState [⟨"CompositeElement", "some text", []⟩]
    (by intro k hk; simp [emptyState] at hk)

/-- C6: if a required credential (either API key) is missing or empty
(Python falsiness), construction fails fast with a configuration error
(`ValueError`): no index state is produced, and the error is reached before
any partitioning, summarization or indexing, so the result is independent of
the document chunks and of the summarizers. -/
theorem C6_config_error (env : Env) (chunks chunks2 : List Chunk)
    (summ summ2 : Chunk → String) (vsumm vsumm2 : String → String)
    (h : truthy env.together_api_key = false ∨ truthy env.google_api_key = false) :
    (∃ msg, init env chunks summ vsumm = Except.error msg) ∧
    init env chunks summ vsumm = init env chunks2 summ2 vsumm2 := by
  cases htog : truthy env.together_api_key with
  | false => constructor <;> simp [init, htog]
  | true =>
    have hgoo : truthy env.google_api_key = false := by
      rcases h with h | h
      · rw [htog] at h; exact absurd h (by simp)
      · exact h
    constructor <;> simp [init, htog, hgoo]

/-- Witness for C6 at a concrete input: unset `TOGETHER_API_KEY`. -/
theorem C6_witness :
    (∃ msg, init ⟨none, some "g"⟩ [] (fun c => c.content) (fun b => b)
      = Except.error msg) ∧
    init ⟨none, some "g"⟩ [] (fun c => c.content) (fun b => b)
      = init ⟨none, some "g"⟩ [⟨"Title", "x", []⟩] (fun _ => "s") (fun _ => "i") :=
  C6_config_error ⟨none, some "g"⟩ [] [⟨"Title", "x", []⟩] (fun c => c.content)
    (fun _ => "s") (fun b => b) (fun _ => "i") (Or.inl rfl)

theorem countSleeps_append (a b : List Ev) :
    countSleeps (a ++ b) = countSleeps a + countSleeps b := by
  simp [countSleeps, List.filter_append]

theorem countCalls_append (a b : List Ev) :
    countCalls (a ++ b) = countCalls a + countCalls b := by
  simp [countCalls, List.filter_append]

theorem countSleeps_replicate_call (n : Nat) :
    countSleeps (List.replicate n Ev.call) = 0 := by
  induction n with
  | zero => rfl
  | succ n ih => simp [List.replicate_succ, countSleeps, ih]

theorem countCalls_replicate_call (n : Nat) :
    countCalls (List.replicate n Ev.call) = n := by
  induction n with
  | zero => rfl
  | succ n ih => simp [List.replicate_succ, countCalls, ih]

theorem countSleeps_textEvents : ∀ (n c : Nat),
    countSleeps (textEvents c n) = (c + n) / 10 - c / 10
  | 0, c => by simp [textEvents, countSleeps]
  | n + 1, c => by
    have ih := countSleeps_textEvents n (c + 1)
    by_cases h : (c + 1) % 10 = 0
    · have hstep : countSleeps (textEvents c (n + 1))
          = 1 + countSleeps (textEvents (c + 1) n) := by
        simp [textEvents, h, countSleeps]
        omega
      rw [hstep, ih]
      omega
    · have hstep : countSleeps (textEvents c (n + 1))
          = countSleeps (textEvents (c + 1) n) := by
        simp [textEvents, h, countSleeps]
      rw [hstep, ih]
      omega

theorem countCalls_textEvents : ∀ (n c : Nat), countCalls (textEvents c n) = n
  | 0, c => by simp [textEvents, countCalls]
  | n + 1, c => by
    have ih := countCalls_textEvents n (c + 1)
    by_cases h : (c + 1) % 10 = 0
    · have hstep : countCalls (textEvents c (n + 1))
          = 1 + countCalls (textEvents (c + 1) n) := by
        simp [textEvents, h, countCalls]
        omega
      omega
    · have hstep : countCalls (textEvents c (n + 1))
          = 1 + countCalls (textEvents (c + 1) n) := by
        simp [textEvents, h, countCalls]
        omega
      omega

/-- Counterexample to C7 as stated: an ingestion with 0 texts, 10 tables and
0 images performs ten summarization calls but pauses zero times — a pause
after every ten calls counted uniformly across chunk kinds would demand one
— because the ten-call check exists only in the text loop. -/
theorem C7_counterexample :
    ¬ (countSleeps (ingestTrace 0 10 0)
        = countCalls (ingestTrace 0 10 0) / 10) := by
  decide

/-- C7 amended: ingestion is sequential, with exactly one blocking
summarization call per chunk (texts, then tables, then images, in that
order), but the fixed pause is inserted only inside the text loop — before
every tenth text call; table calls advance the shared counter without ever
pausing, image calls are not counted at all, so a whole ingestion pauses
exactly ⌊texts / 10⌋ times. -/
theorem C7_amended_pause_only_in_text_loop (t b i : Nat) :
    countCalls (ingestTrace t b i) = t + b + i ∧
    countSleeps (ingestTrace t b i) = t / 10 := by
  constructor
  · simp [ingestTrace, countCalls_append, countCalls_textEvents,
      countCalls_replicate_call]
    omega
  · simp [ingestTrace, countSleeps_append, countSleeps_textEvents,
      countSleeps_replicate_call]

theorem dget_eq_of_mem : ∀ (store : List (Nat × Payload)) (k : Nat) (v : Payload),
    (k, v) ∈ store → (store.map Prod.fst).Nodup → dget store k = some v
  | [], _, _, hmem, _ => by simp at hmem
  | p :: ps, k, v, hmem, hnd => by
    have hnd' : (p.1 :: ps.map Prod.fst).Nodup := by simpa using hnd
    rcases List.mem_cons.mp hmem with he | hmem2
    · subst he
      simp [dget, List.find?]
    · have hk : k ∈ ps.map Prod.fst := List.mem_map.mpr ⟨(k, v), hmem2, rfl⟩
      have hne : (p.1 == k) = false := by
        rw [beq_eq_false_iff_ne]
        intro he2
        exact (List.nodup_cons.mp hnd').1 (he2 ▸ hk)
      have ihx := dget_eq_of_mem ps k v hmem2 (List.nodup_cons.mp hnd').2
      simpa [dget, List.find?, hne] using ihx

theorem mem_zip_fresh_get {α : Type} (f : α → Payload) (l : List α)
    (next j : Nat) (hj : j < l.length) :
    (next + j, f (l.get ⟨j, hj⟩)) ∈ (freshIds next l.length).zip (l.map f) := by
  have hjz : j < ((freshIds next l.length).zip (l.map f)).length := by
    simp only [List.length_zip, freshIds_length, List.length_map, Nat.min_self]
    exact hj
  have hval : ((freshIds next l.length).zip (l.map f)).get ⟨j, hjz⟩
      = (next + j, f (l.get ⟨j, hj⟩)) := by
    rw [List.get_eq_getElem, List.getElem_zip]
    simp [freshIds]
  rw [← hval]
  exact List.get_mem _ _ _

/-- C2 (the retrieval step of `search` lives in the `MultiVectorRetriever` /
`Chroma` collaborators outside `src/`; it is modelled from the spec): after
indexing a chunk sequence into the fresh index, whenever the
nearest-neighbor collaborator returns the identifier of any indexed entry —
the `j`-th text chunk, the `j`-th table chunk, or the `j`-th extracted image
— as it does when the query matches that entry's summary, the search output
contains that entry's original content: the chunk object itself for texts
and tables (`Payload.chunk`), the original base64 image for images
(`Payload.image`), never the summary string. -/
theorem C2_search_returns_original_content (summ : Chunk → String)
    (vsumm : String → String) (chunks : List Chunk) (nn : NNFun) (q : String)
    (k : Nat) (s2 : IndexState)
    (hing : ingest emptyState summ vsumm chunks = some s2) :
    (∀ j (hj : j < (get_text_tables chunks).1.length),
      j ∈ nn q k s2.vectorstore →
      Payload.chunk ((get_text_tables chunks).1.get ⟨j, hj⟩) ∈ search s2 nn q k) ∧
    (∀ j (hj : j < (get_text_tables chunks).2.length),
      (get_text_tables chunks).1.length + j ∈ nn q k s2.vectorstore →
      Payload.chunk ((get_text_tables chunks).2.get ⟨j, hj⟩) ∈ search s2 nn q k) ∧
    (∀ j (hj : j < (get_imagesb64 chunks).length),
      (get_text_tables chunks).1.length + (get_text_tables chunks).2.length + j
        ∈ nn q k s2.vectorstore →
      Payload.image ((get_imagesb64 chunks).get ⟨j, hj⟩) ∈ search s2 nn q k) := by
  have hb0 : keyBound emptyState := by intro x hx; simp [emptyState] at hx
  have heq := ingest_eq emptyState summ vsumm chunks hb0
  have hs2 := Option.some.inj (hing.symm.trans heq)
  obtain ⟨s2x, hingx, hwfx, -, -⟩ := ingest_state emptyState summ vsumm chunks WF_emptyState
  have hsx : s2 = s2x := Option.some.inj (hing.symm.trans hingx)
  obtain ⟨-, -, hndx⟩ : keyBound s2x ∧
      s2x.vectorstore.map Prod.fst = s2x.docstore.map Prod.fst ∧
      (s2x.docstore.map Prod.fst).Nodup := hwfx
  have hnd : (s2.docstore.map Prod.fst).Nodup := by rw [hsx]; exact hndx
  have hmain : ∀ (i : Nat) (v : Payload), (i, v) ∈ s2.docstore →
      i ∈ nn q k s2.vectorstore → v ∈ search s2 nn q k := by
    intro i v hmem hi
    exact List.mem_filterMap.mpr ⟨i, hi, dget_eq_of_mem _ _ _ hmem hnd⟩
  refine ⟨?_, ?_, ?_⟩
  · intro j hj hnn
    refine hmain j _ ?_ hnn
    rw [hs2]
    simp only [emptyState, List.nil_append, Nat.zero_add]
    refine List.mem_append_left _ (List.mem_append_left _ ?_)
    simpa using mem_zip_fresh_get Payload.chunk (get_text_tables chunks).1 0 j hj
  · intro j hj hnn
    refine hmain _ _ ?_ hnn
    rw [hs2]
    simp only [emptyState, List.nil_append, Nat.zero_add]
    exact List.mem_append_left _ (List.mem_append_right _
      (mem_zip_fresh_get Payload.chunk (get_text_tables chunks).2
        (get_text_tables chunks).1.length j hj))
  · intro j hj hnn
    refine hmain _ _ ?_ hnn
    rw [hs2]
    simp only [emptyState, List.nil_append, Nat.zero_add]
    exact List.mem_append_right _
      (mem_zip_fresh_get Payload.image (get_imagesb64 chunks)
        ((get_text_tables chunks).1.length + (get_text_tables chunks).2.length) j hj)

/-- Witness for C2 at a concrete input covering all three kinds: one
composite text chunk with an embedded image plus one table chunk, a
nearest-neighbor collaborator returning all three identifiers; the search
output contains the original table chunk, the original base64 image and the
original text chunk — not their summaries. -/
theorem C2_witness :
    Payload.chunk ⟨"TableChunk", "a table", []⟩
      ∈ search { nextId := 3,
                 vectorstore := [(0, "text one"), (1, "a table"), (2, "B64")],
                 docstore := [(0, Payload.chunk ⟨"CompositeElement", "text one",
                     [⟨"Image", "B64"⟩]⟩),
                   (1, Payload.chunk ⟨"TableChunk", "a table", []⟩),
                   (2, Payload.image "B64")] }
          (fun _ _ _ => [1, 2, 0]) "financial" 3 ∧
    Payload.image "B64"
      ∈ search { nextId := 3,
                 vectorstore := [(0, "text one"), (1, "a table"), (2, "B64")],
                 docstore := [(0, Payload.chunk ⟨"CompositeElement", "text one",
                     [⟨"Image", "B64"⟩]⟩),
                   (1, Payload.chunk ⟨"TableChunk", "a table", []⟩),
                   (2, Payload.image "B64")] }
          (fun _ _ _ => [1, 2, 0]) "financial" 3 ∧
    Payload.chunk ⟨"CompositeElement", "text one", [⟨"Image", "B64"⟩]⟩
      ∈ search { nextId := 3,
                 vectorstore := [(0, "text one"), (1, "a table"), (2, "B64")],
                 docstore := [(0, Payload.chunk ⟨"CompositeElement", "text one",
                     [⟨"Image", "B64"⟩]⟩),
                   (1, Payload.chunk ⟨"TableChunk", "a table", []⟩),
                   (2, Payload.image "B64")] }
          (fun _ _ _ => [1, 2, 0]) "financial" 3 := by
  have h := C2_search_returns_original_content (fun c => c.content) (fun b => b)
    [⟨"CompositeElement", "text one", [⟨"Image", "B64"⟩]⟩,
     ⟨"TableChunk", "a table", []⟩]
    (fun _ _ _ => [1, 2, 0]) "financial" 3
    { nextId := 3,
      vectorstore := [(0, "text one"), (1, "a table"), (2, "B64")],
      docstore := [(0, Payload.chunk ⟨"CompositeElement", "text one",
          [⟨"Image", "B64"⟩]⟩),
        (1, Payload.chunk ⟨"TableChunk", "a table", []⟩),
        (2, Payload.image "B64")] }
    rfl
  exact ⟨h.2.1 0 (by decide) (by decide), h.2.2 0 (by decide) (by decide),
    h.1 0 (by decide) (by decide)⟩

theorem filterMap_align (f : Nat → Option Payload) :
    ∀ l : List Nat, List.Forall₂ (fun i p => f i = some p)
      (l.filter (fun i => (f i).isSome)) (l.filterMap f)
  | [] => by simp
  | a :: l => by
    have ih := filterMap_align f l
    cases hfa : f a with
    | none => simpa [List.filter_cons, List.filterMap_cons, hfa] using ih
    | some v =>
      simp only [List.filter_cons, List.filterMap_cons, hfa, Option.isSome_some,
        if_true]
      exact List.Forall₂.cons hfa ih

/-- C8 (the retrieval step of `search` lives in the `MultiVectorRetriever` /
`Chroma` collaborators outside `src/`; it is modelled from the spec): for
every query and every `top_k`, under the nearest-neighbor collaborator's
contract the search output has size at most `top_k`; with `top_k = 0` it is
empty; and the output aligns position-by-position, in similarity-rank order,
with a duplicate-free sublist of the ranked identifier list — each returned
payload is the content-store entry of a distinct indexed identifier. -/
theorem C8_search_topk (s : IndexState) (nn : NNFun) (q : String) (k : Nat)
    (hc : NNContract nn q k s.vectorstore) :
    (search s nn q k).length ≤ k ∧
    (k = 0 → search s nn q k = []) ∧
    ∃ ids : List Nat, ids.Nodup ∧ ids.Sublist (nn q k s.vectorstore) ∧
      List.Forall₂ (fun i p => dget s.docstore i = some p) ids (search s nn q k) := by
  obtain ⟨hlen, hnd, hsub⟩ : (nn q k s.vectorstore).length ≤ k ∧
      (nn q k s.vectorstore).Nodup ∧
      ∀ i ∈ nn q k s.vectorstore, i ∈ s.vectorstore.map Prod.fst := hc
  refine ⟨?_, ?_, ?_⟩
  · calc (search s nn q k).length ≤ (nn q k s.vectorstore).length :=
      List.length_filterMap_le _ _
    _ ≤ k := hlen
  · intro hk
    subst hk
    have hnil : nn q 0 s.vectorstore = [] :=
      List.eq_nil_of_length_eq_zero (Nat.le_zero.mp hlen)
    simp [search, hnil]
  · exact ⟨(nn q k s.vectorstore).filter (fun i => (dget s.docstore i).isSome),
      hnd.filter _, List.filter_sublist _, filterMap_align _ _⟩

/-- Witness for C8 at a concrete input: the empty index with a collaborator
that returns no identifiers, `top_k = 0`. -/
theorem C8_witness :
    NNContract (fun _ _ _ => []) "q" 0 emptyState.vectorstore ∧
    ((search emptyState (fun _ _ _ => []) "q" 0).length ≤ 0 ∧
     (0 = 0 → search emptyState (fun _ _ _ => []) "q" 0 = []) ∧
     ∃ ids : List Nat, ids.Nodup ∧
       ids.Sublist ((fun _ _ _ => ([] : List Nat)) "q" 0 emptyState.vectorstore) ∧
       List.Forall₂ (fun i p => dget emptyState.docstore i = some p) ids
         (search emptyState (fun _ _ _ => []) "q" 0)) :=
  ⟨⟨by simp, by simp, by simp⟩,
   C8_search_topk emptyState (fun _ _ _ => []) "q" 0 ⟨by simp, by simp, by simp⟩⟩
